import Mathlib

/-!
Verification development for the Smasher battle-log analyzer.

The program reads a comma-separated text log (a one-line player header
followed by timestamped action lines), classifies each action code into
Attack / Shield / Dodge, and aggregates counts, ratios and a per-code
frequency table.

Strings are modelled as lists of characters (`Str`), so that every
operation is structural and computable.  Rust's `str::split(',')`,
`str::trim`, `u32::from_str` and the decimal fragment of `f64::from_str`
are embedded below; `f64` values are modelled by exact rationals, which
give the exact numeric value of a decimal literal.  Errors are modelled
by the `SmasherError` enum carrying the message strings the code builds.
-/

namespace Smasher

/-- Strings are modelled as lists of characters. -/
abbrev Str := List Char

/-- Coerce a Lean string literal to the `Str` model. -/
def str (s : String) : Str := s.data

/-- Whitespace test used by `trimStr` (models Rust `char::is_whitespace`
on the ASCII whitespace the logs contain). -/
def isWS (c : Char) : Bool := c.isWhitespace

/-- Model of Rust `str::trim`: drop whitespace from both ends. -/
def trimStr (s : Str) : Str :=
  ((s.dropWhile isWS).reverse.dropWhile isWS).reverse

/-- Model of Rust `line.split(',').collect::<Vec<_>>()`: split at every
comma; the empty string yields one empty field. -/
def splitOnComma : Str → List Str
  | [] => [[]]
  | c :: rest =>
    if c = ',' then [] :: splitOnComma rest
    else
      match splitOnComma rest with
      | [] => [[c]]
      | f :: fs => (c :: f) :: fs

/-- Positional value of a list of decimal digit characters. -/
def digitsVal (cs : Str) : Nat :=
  cs.foldl (fun a c => a * 10 + (c.toNat - 48)) 0

/-- Model of Rust `u32::from_str` (`parts[1].trim().parse::<u32>()`):
an optional leading plus sign, then one or more ASCII digits, and the
value must fit in 32 bits; anything else is rejected. -/
def parseU32 (s : Str) : Option Nat :=
  let t := if s.head? = some '+' then s.tail else s
  if t ≠ [] ∧ t.all Char.isDigit ∧ digitsVal t < 4294967296 then
    some (digitsVal t)
  else none

/-- Optional exponent suffix of a float literal: empty means no
exponent (factor 1); otherwise `e`/`E`, an optional sign and at least
one digit. -/
def parseExp : Str → Option ℚ
  | [] => some 1
  | c :: r =>
    if c = 'e' ∨ c = 'E' then
      let p := match r with
        | '+' :: r2 => ((1 : ℤ), r2)
        | '-' :: r2 => ((-1 : ℤ), r2)
        | r2 => ((1 : ℤ), r2)
      if p.2 ≠ [] ∧ p.2.all Char.isDigit then
        some ((10 : ℚ) ^ (p.1 * (digitsVal p.2 : ℤ)))
      else none
    else none

/-- Model of the finite-decimal fragment of Rust `f64::from_str`
(`parts[0].trim().parse::<f64>()`): optional sign, then digits, an
optional point with further digits (at least one digit overall), and an
optional exponent.  The value returned is the exact rational value of
the literal (the embedding of `f64`); `inf`/`nan`/hex forms are not
modelled. -/
def parseF64 (s : Str) : Option ℚ :=
  let p := match s with
    | '+' :: r => ((1 : ℚ), r)
    | '-' :: r => ((-1 : ℚ), r)
    | r => ((1 : ℚ), r)
  let intPart := p.2.takeWhile Char.isDigit
  let rest1 := p.2.dropWhile Char.isDigit
  match rest1 with
  | '.' :: r2 =>
    let fracPart := r2.takeWhile Char.isDigit
    let rest2 := r2.dropWhile Char.isDigit
    if intPart = [] ∧ fracPart = [] then none
    else
      (parseExp rest2).map (fun e =>
        p.1 * ((digitsVal intPart : ℚ) +
          (digitsVal fracPart : ℚ) / (10 : ℚ) ^ fracPart.length) * e)
  | r1 =>
    if intPart = [] then none
    else (parseExp r1).map (fun e => p.1 * (digitsVal intPart : ℚ) * e)

/-- Attack action-id table `ATTACK_IDS` from `model.rs` (id, display name). -/
def ATTACK_IDS : List (Str × Str) :=
  [ (str "j1", str "弱1段"),
    (str "j2", str "弱2段"),
    (str "st", str "横強"),
    (str "ut", str "上強"),
    (str "dt", str "下強"),
    (str "DA", str "ダッシュアタック"),
    (str "ss", str "横スマ"),
    (str "us", str "上スマ"),
    (str "ds", str "下スマ"),
    (str "na", str "空N"),
    (str "fa", str "空前"),
    (str "ba", str "空後"),
    (str "ua", str "空上"),
    (str "da", str "空下"),
    (str "nb_c", str "NB（タメ）"),
    (str "nb_a", str "NB（攻撃）"),
    (str "sb", str "横B"),
    (str "ub_g", str "上B（地上）"),
    (str "ub_a", str "上B（空中）"),
    (str "db_g", str "下B（地上）"),
    (str "db_a", str "下B（空中）"),
    (str "g", str "つかみ"),
    (str "ga", str "つかみ攻撃"),
    (str "fth", str "前投げ"),
    (str "bth", str "後投げ"),
    (str "uth", str "上投げ"),
    (str "dth", str "下投げ"),
    (str "fc", str "前投げ（前派生）"),
    (str "bc", str "前投げ（後派生）"),
    (str "uc", str "前投げ（上派生）"),
    (str "dc", str "前投げ（下派生）") ]

/-- Shield action-id table `SHIELD_IDS` from `model.rs`. -/
def SHIELD_IDS : List (Str × Str) :=
  [ (str "s", str "シールド") ]

/-- Dodge action-id table `DODGE_IDS` from `model.rs`. -/
def DODGE_IDS : List (Str × Str) :=
  [ (str "nd", str "その場回避"),
    (str "sd", str "横回避"),
    (str "ad", str "空中回避") ]

/-- The closed category enum from `model.rs`. -/
inductive ActionType where
  | Attack : ActionType
  | Shield : ActionType
  | Dodge : ActionType
deriving DecidableEq, Repr

/-- `ActionType::from_action_id`: classify an action-id string.  The
match arms mirror the source: shield, dodge, then the attack id groups,
and a final wildcard arm returning Attack. -/
def ActionType.from_action_id (action_id : Str) : ActionType :=
  if action_id = str "s" then .Shield
  else if action_id = str "nd" ∨ action_id = str "sd" ∨ action_id = str "ad" then .Dodge
  else if action_id = str "j1" ∨ action_id = str "j2" then .Attack
  else if action_id = str "st" ∨ action_id = str "ut" ∨ action_id = str "dt" ∨
      action_id = str "DA" then .Attack
  else if action_id = str "ss" ∨ action_id = str "us" ∨ action_id = str "ds" then .Attack
  else if action_id = str "na" ∨ action_id = str "fa" ∨ action_id = str "ba" ∨
      action_id = str "ua" ∨ action_id = str "da" then .Attack
  else if action_id = str "nb_c" ∨ action_id = str "nb_a" ∨ action_id = str "sb" ∨
      action_id = str "ub_g" ∨ action_id = str "ub_a" ∨ action_id = str "db_g" ∨
      action_id = str "db_a" then .Attack
  else if action_id = str "g" ∨ action_id = str "ga" ∨ action_id = str "fth" ∨
      action_id = str "bth" ∨ action_id = str "uth" ∨ action_id = str "dth" ∨
      action_id = str "fc" ∨ action_id = str "bc" ∨ action_id = str "uc" ∨
      action_id = str "dc" then .Attack
  else .Attack

/-- First-match lookup in an (id, name) table, as the `for` loops in
`get_action_name` perform it. -/
def lookupTable (action_id : Str) : List (Str × Str) → Option Str
  | [] => none
  | (id, name) :: rest =>
    if id = action_id then some name else lookupTable action_id rest

/-- `ActionType::get_action_name`: search the attack table, then the
shield table, then the dodge table; return the id itself when no entry
matches. -/
def ActionType.get_action_name (action_id : Str) : Str :=
  match lookupTable action_id ATTACK_IDS with
  | some name => name
  | none =>
    match lookupTable action_id SHIELD_IDS with
    | some name => name
    | none =>
      match lookupTable action_id DODGE_IDS with
      | some name => name
      | none => action_id

/-- One logged action (`Action` in `model.rs`); the `f64` timestamp is
modelled by an exact rational. -/
structure Action where
  timestamp : ℚ
  action_type : ActionType
  original_id : Str
deriving DecidableEq, Repr

/-- `Action::new`: derive the category from the id and store the id. -/
def Action.new (timestamp : ℚ) (action_id : Str) : Action :=
  { timestamp := timestamp
    action_type := ActionType.from_action_id action_id
    original_id := action_id }

/-- `PlayerInfo` from `model.rs`; `u32 match_number` is modelled as a
natural number (parsing enforces the 32-bit bound). -/
structure PlayerInfo where
  student_id : Str
  match_number : Nat
deriving DecidableEq, Repr

/-- `BattleLog` from `model.rs`. -/
structure BattleLog where
  player_info : PlayerInfo
  actions : List Action
deriving DecidableEq, Repr

/-- `BattleLog::new`. -/
def BattleLog.new (player_info : PlayerInfo) (actions : List Action) : BattleLog :=
  { player_info := player_info, actions := actions }

/-- `SmasherError` from `error.rs`; the payload is the message string
the code builds (the I/O payload is reduced to a message as well). -/
inductive SmasherError where
  | IoError : Str → SmasherError
  | InvalidFormat : Str → SmasherError
  | ParseError : Str → SmasherError
  | EmptyData : Str → SmasherError
deriving DecidableEq, Repr

/-- Decimal rendering of a line number, as `format!` interpolates it. -/
def natStr (n : Nat) : Str := (Nat.repr n).data

/-- Message of the header-shape error in `parse_player_info`. -/
def headerFormatMsg (first_line : Str) : Str :=
  str "1行目は「学籍番号,対戦回次」の形式である必要があります。実際: " ++ first_line

/-- Message of the match-number conversion error in `parse_player_info`. -/
def matchNumberMsg (field : Str) : Str :=
  str "対戦回次を数値に変換できません: " ++ field

/-- Message of the action-line-shape error in `parse_action_line`. -/
def actionFormatMsg (line_number : Nat) (line : Str) : Str :=
  natStr line_number ++ str "行目: 「タイムスタンプ,行動ID」の形式である必要があります。実際: " ++ line

/-- Message of the timestamp conversion error in `parse_action_line`. -/
def timestampMsg (line_number : Nat) (field : Str) : Str :=
  natStr line_number ++ str "行目: タイムスタンプを数値に変換できません: " ++ field

/-- `parse_player_info` from `parser.rs`: take the first line off the
iterator (modelled as the list of remaining lines), require exactly two
comma-separated fields, trim the student id, and parse the trimmed
second field as a `u32`.  Returns the parsed header together with the
lines left on the iterator. -/
def parse_player_info : List Str → Except SmasherError (PlayerInfo × List Str)
  | [] => .error (.EmptyData (str "ファイルが空です"))
  | first_line :: rest =>
    match splitOnComma first_line with
    | [p0, p1] =>
      match parseU32 (trimStr p1) with
      | none => .error (.ParseError (matchNumberMsg p1))
      | some n => .ok (⟨trimStr p0, n⟩, rest)
    | _ => .error (.InvalidFormat (headerFormatMsg first_line))

/-- `parse_action_line` from `parser.rs`: split on commas, require two
fields, parse the trimmed first as a float and keep the trimmed second
as the action id. -/
def parse_action_line (line : Str) (line_number : Nat) : Except SmasherError Action :=
  match splitOnComma line with
  | [p0, p1] =>
    match parseF64 (trimStr p0) with
    | none => .error (.ParseError (timestampMsg line_number p0))
    | some timestamp => .ok (Action.new timestamp (trimStr p1))
  | _ => .error (.InvalidFormat (actionFormatMsg line_number line))

/-- Loop body of `parse_actions`: `i` is the 0-based `enumerate` index
of the current line among the lines after the header, so the reported
line number is `i + 2`.  Blank lines (after trimming) are skipped but
still advance `i`. -/
def parseActionsGo : Nat → List Str → Except SmasherError (List Action)
  | _, [] => .ok []
  | i, l :: rest =>
    let trimmed := trimStr l
    if trimmed = [] then parseActionsGo (i + 1) rest
    else
      match parse_action_line trimmed (i + 2) with
      | .error e => .error e
      | .ok a =>
        match parseActionsGo (i + 1) rest with
        | .error e => .error e
        | .ok as => .ok (a :: as)

/-- `parse_actions` from `parser.rs`, applied to the lines remaining
after the header line was consumed. -/
def parse_actions (lines : List Str) : Except SmasherError (List Action) :=
  parseActionsGo 0 lines

/-- `read_battle_log` from `parser.rs` on an already-read list of
lines: parse the header, parse the remaining lines into actions, and
reject a log with no action records. -/
def read_battle_log (lines : List Str) : Except SmasherError BattleLog :=
  match parse_player_info lines with
  | .error e => .error e
  | .ok (player_info, rest) =>
    match parse_actions rest with
    | .error e => .error e
    | .ok actions =>
      if actions = [] then
        .error (.EmptyData (str "行動データが1つも見つかりませんでした"))
      else .ok (BattleLog.new player_info actions)

/-- `ActionCounts` from `model.rs`; the `u32` counters are modelled as
naturals. -/
structure ActionCounts where
  attack_count : Nat
  shield_count : Nat
  dodge_count : Nat
deriving DecidableEq, Repr

/-- `ActionCounts::new`. -/
def ActionCounts.new : ActionCounts :=
  { attack_count := 0, shield_count := 0, dodge_count := 0 }

/-- `ActionCounts::total`. -/
def ActionCounts.total (c : ActionCounts) : Nat :=
  c.attack_count + c.shield_count + c.dodge_count

/-- `ActionCounts::increment`. -/
def ActionCounts.increment (c : ActionCounts) (t : ActionType) : ActionCounts :=
  match t with
  | .Attack => { c with attack_count := c.attack_count + 1 }
  | .Shield => { c with shield_count := c.shield_count + 1 }
  | .Dodge => { c with dodge_count := c.dodge_count + 1 }

/-- `ActionCounts::attack_ratio`: percentage of attacks, 0 when the
total is 0; `f64` arithmetic on these small integers is modelled
exactly by rationals. -/
def ActionCounts.attack_ratio_pct (c : ActionCounts) : ℚ :=
  let total := c.total
  if total = 0 then 0
  else ((c.attack_count : ℚ) / (total : ℚ)) * 100

/-- `ActionCounts::shield_ratio`. -/
def ActionCounts.shield_ratio_pct (c : ActionCounts) : ℚ :=
  let total := c.total
  if total = 0 then 0
  else ((c.shield_count : ℚ) / (total : ℚ)) * 100

/-- `ActionCounts::dodge_ratio`. -/
def ActionCounts.dodge_ratio_pct (c : ActionCounts) : ℚ :=
  let total := c.total
  if total = 0 then 0
  else ((c.dodge_count : ℚ) / (total : ℚ)) * 100

/-- `ActionCounts::most_frequent_action`: compare the three ratios,
preferring Attack, then Shield, then Dodge on ties. -/
def ActionCounts.most_frequent_action (c : ActionCounts) : ActionType :=
  let attack := c.attack_ratio_pct
  let shield := c.shield_ratio_pct
  let dodge := c.dodge_ratio_pct
  if attack ≥ shield ∧ attack ≥ dodge then .Attack
  else if shield ≥ dodge then .Shield
  else .Dodge

/-- `count_actions` from `analyzer.rs`: fold `increment` over the
actions. -/
def count_actions (battle_log : BattleLog) : ActionCounts :=
  battle_log.actions.foldl (fun c a => c.increment a.action_type) ActionCounts.new

/-- One `BTreeMap::entry(..).or_insert(0) += 1` step: the map is its
ascending-by-key association list. -/
def btreeInsert : List (Str × Nat) → Str → List (Str × Nat)
  | [], c => [(c, 1)]
  | (k, v) :: rest, c =>
    if c < k then (c, 1) :: (k, v) :: rest
    else if c = k then (k, v + 1) :: rest
    else (k, v) :: btreeInsert rest c

/-- The comparator of `count_actions_by_id`: count descending, then id
ascending (Rust `b.1.cmp(&a.1).then_with(|| a.0.cmp(&b.0))`). -/
def freqLe (a b : Str × Nat) : Prop :=
  b.2 < a.2 ∨ (a.2 = b.2 ∧ a.1 ≤ b.1)

instance : DecidableRel freqLe := fun a b => by
  unfold freqLe; infer_instance

/-- `count_actions_by_id` from `analyzer.rs`: tally the original ids in
a `BTreeMap`, then sort the entries by count descending with ties
broken by id ascending. -/
def count_actions_by_id (battle_log : BattleLog) : List (Str × Nat) :=
  let items := battle_log.actions.foldl (fun m a => btreeInsert m a.original_id) []
  items.insertionSort freqLe

/-- `AnalysisResult` from `model.rs`. -/
structure AnalysisResult where
  player_info : PlayerInfo
  counts : ActionCounts
  action_id_counts : List (Str × Nat)
deriving DecidableEq, Repr

/-- `analyze` from `analyzer.rs`. -/
def analyze (battle_log : BattleLog) : AnalysisResult :=
  { player_info := battle_log.player_info
    counts := count_actions battle_log
    action_id_counts := count_actions_by_id battle_log }

/-- Ratio shape shared by the three ratio methods (proof helper). -/
def ratioOf (c : ActionCounts) (n : Nat) : ℚ :=
  if c.total = 0 then 0
  else ((n : ℚ) / (c.total : ℚ)) * 100

/-- Example log with occurrence counts ss = 3, ds = 3 and us = 5, the
codes deliberately interleaved in input order. -/
def exampleLog : BattleLog :=
  BattleLog.new ⟨str "b1022024", 1⟩
    [ Action.new 1 (str "us"), Action.new 2 (str "ss"), Action.new 3 (str "ds"),
      Action.new 4 (str "us"), Action.new 5 (str "ds"), Action.new 6 (str "ss"),
      Action.new 7 (str "us"), Action.new 8 (str "ss"), Action.new 9 (str "ds"),
      Action.new 10 (str "us"), Action.new 11 (str "us") ]

end Smasher

deriving instance DecidableEq for Except

namespace Smasher

/-- Looking a key up in a concatenation of tables finds the first match. -/
theorem lookupTable_append (id : Str) (xs ys : List (Str × Str)) :
    lookupTable id (xs ++ ys) =
      match lookupTable id xs with
      | some n => some n
      | none => lookupTable id ys := by
  induction xs with
  | nil => rfl
  | cons p rest ih =>
    obtain ⟨k, n⟩ := p
    by_cases h : k = id
    · simp [lookupTable, h]
    · simp [lookupTable, h, ih]

/-- C4: classification is a total function returning one of
Attack / Shield / Dodge for every string; the string s maps to Shield,
the strings nd, sd and ad map to Dodge, and every other string —
including codes in no table — maps to Attack. -/
theorem c4_classify_total :
    (∀ id : Str, ActionType.from_action_id id = .Attack ∨
      ActionType.from_action_id id = .Shield ∨ ActionType.from_action_id id = .Dodge)
    ∧ ActionType.from_action_id (str "s") = .Shield
    ∧ (ActionType.from_action_id (str "nd") = .Dodge ∧
       ActionType.from_action_id (str "sd") = .Dodge ∧
       ActionType.from_action_id (str "ad") = .Dodge)
    ∧ (∀ id : Str, id ≠ str "s" → id ≠ str "nd" → id ≠ str "sd" → id ≠ str "ad" →
        ActionType.from_action_id id = .Attack) := by
  refine ⟨?_, by decide, by decide, ?_⟩
  · intro id
    unfold ActionType.from_action_id
    split_ifs <;> simp
  · intro id h1 h2 h3 h4
    unfold ActionType.from_action_id
    rw [if_neg h1, if_neg (fun h => h.elim h2 (fun h' => h'.elim h3 h4))]
    split_ifs <;> rfl

/-- C4 witness: the unknown code zz classifies as Attack without
faulting. -/
theorem c4_witness : ActionType.from_action_id (str "zz") = .Attack :=
  c4_classify_total.2.2.2 (str "zz") (by decide) (by decide) (by decide) (by decide)

/-- C10: the classifier agrees with the static display tables — every
id in ATTACK_IDS classifies as Attack, every id in SHIELD_IDS as
Shield, and every id in DODGE_IDS as Dodge. -/
theorem c10_tables_agree :
    (∀ p ∈ ATTACK_IDS, ActionType.from_action_id p.1 = .Attack)
    ∧ (∀ p ∈ SHIELD_IDS, ActionType.from_action_id p.1 = .Shield)
    ∧ (∀ p ∈ DODGE_IDS, ActionType.from_action_id p.1 = .Dodge) := by
  refine ⟨?_, ?_, ?_⟩ <;> decide

/-- C10 witness: the table entry for ss is classified as Attack, the
entry for s as Shield, and the entry for nd as Dodge. -/
theorem c10_witness :
    ActionType.from_action_id (str "ss") = .Attack
    ∧ ActionType.from_action_id (str "s") = .Shield
    ∧ ActionType.from_action_id (str "nd") = .Dodge :=
  ⟨c10_tables_agree.1 (str "ss", str "横スマ") (by decide),
   c10_tables_agree.2.1 (str "s", str "シールド") (by decide),
   c10_tables_agree.2.2 (str "nd", str "その場回避") (by decide)⟩

/-- C9: display-name lookup searches the attack table, then the shield
table, then the dodge table, returns the label of the first exact
match, and returns the input code unchanged when no entry matches —
equivalently, it is first-match lookup in the concatenated tables with
the identity as fallback, and it never fails. -/
theorem c9_display_name (id : Str) :
    ActionType.get_action_name id =
      (lookupTable id (ATTACK_IDS ++ SHIELD_IDS ++ DODGE_IDS)).getD id := by
  unfold ActionType.get_action_name
  rw [lookupTable_append, lookupTable_append]
  cases lookupTable id ATTACK_IDS with
  | some n => rfl
  | none =>
    cases lookupTable id SHIELD_IDS with
    | some n => rfl
    | none =>
      cases lookupTable id DODGE_IDS with
      | some n => rfl
      | none => rfl

/-- C8: all three ratios are exactly zero when the total count is
zero; the zero-total guard means the division branch is never taken on
that input. -/
theorem c8_zero_total (c : ActionCounts) (h : c.total = 0) :
    c.attack_ratio_pct = 0 ∧ c.shield_ratio_pct = 0 ∧ c.dodge_ratio_pct = 0 := by
  unfold ActionCounts.attack_ratio_pct ActionCounts.shield_ratio_pct
    ActionCounts.dodge_ratio_pct
  simp [h]

/-- Evaluation lemma: the decimal literal 1 parses to the rational 1. -/
theorem parseF64_one : parseF64 (str "1") = some 1 := by
  have h : parseF64 (str "1") = some ((1 : ℚ) * (digitsVal (str "1") : ℚ) * 1) := rfl
  rw [h]
  norm_num [show digitsVal (str "1") = 1 from rfl]

/-- C1 (amended): on a well-formed action line (two comma-separated
fields whose trimmed first field parses as a float) the parsed record
carries the parsed timestamp value, and its original id is the trimmed
second field of the comma split. -/
theorem c1_action_line (line : Str) (line_number : Nat) (q : ℚ) (p0 p1 : Str)
    (hsplit : splitOnComma line = [p0, p1])
    (hts : parseF64 (trimStr p0) = some q) :
    parse_action_line line line_number =
      .ok ⟨q, ActionType.from_action_id (trimStr p1), trimStr p1⟩ := by
  unfold parse_action_line
  rw [hsplit]
  dsimp only
  rw [hts]
  rfl

/-- C1 witness: the line 1,us parses to timestamp 1 with original id
us. -/
theorem c1_witness :
    parse_action_line (str "1,us") 7 =
      .ok ⟨1, ActionType.from_action_id (str "us"), str "us"⟩ :=
  c1_action_line (str "1,us") 7 1 (str "1") (str "us") (by decide) parseF64_one

/-- C1 counterexample: the claim as stated fails — on the well-formed
line 1.0,SPACE,us (two fields, first parses as a float) the split's
second field is the string with a leading space, but the stored
original id is the trimmed string us, so the raw code is not kept
exactly as split. -/
theorem c1_counterexample :
    splitOnComma (str "1.0, us") = [str "1.0", str " us"]
    ∧ (parse_action_line (str "1.0, us") 2).toOption.map Action.original_id =
        some (str "us")
    ∧ str "us" ≠ str " us" := by
  refine ⟨by decide, by decide, by decide⟩

/-- C2 (amended): for every header line splitting into exactly two
comma-separated fields whose second field trims to a nonempty string
of decimal digits with value below 2 to the 32, parsing succeeds with
the trimmed first field as student id and that value as match number. -/
theorem c2_header_parse (idStr numStr line : Str) (rest : List Str)
    (hsplit : splitOnComma line = [idStr, numStr])
    (hne : trimStr numStr ≠ [])
    (hdig : (trimStr numStr).all Char.isDigit = true)
    (hbound : digitsVal (trimStr numStr) < 4294967296) :
    parse_player_info (line :: rest) =
      .ok (⟨trimStr idStr, digitsVal (trimStr numStr)⟩, rest) := by
  have hplus : ¬ (trimStr numStr).head? = some '+' := by
    cases h : trimStr numStr with
    | nil => exact absurd h hne
    | cons c cs =>
      rw [h] at hdig
      simp only [List.all_cons, Bool.and_eq_true] at hdig
      simp only [List.head?_cons, Option.some.injEq]
      intro hh
      rw [hh] at hdig
      exact absurd hdig.1 (by decide)
  have hu : parseU32 (trimStr numStr) = some (digitsVal (trimStr numStr)) := by
    unfold parseU32
    rw [if_neg hplus]
    rw [if_pos ⟨hne, hdig, hbound⟩]
  unfold parse_player_info
  dsimp only
  rw [hsplit]
  dsimp only
  rw [hu]

/-- C2 witness: the header b1022024,1 parses to that student id and
match number 1. -/
theorem c2_witness :
    parse_player_info [str "b1022024,1"] = .ok (⟨str "b1022024", 1⟩, []) :=
  c2_header_parse (str "b1022024") (str "1") (str "b1022024,1") []
    (by decide) (by decide) (by decide) (by decide)

/-- C2 counterexample: the claim as stated fails — with N equal to
2 to the 32 (a non-negative integer in decimal form) the header is
rejected with a ParseError instead of parsing successfully, because
match numbers are 32-bit. -/
theorem c2_counterexample :
    parse_player_info [str "x,4294967296"] =
      .error (.ParseError (matchNumberMsg (str "4294967296"))) := by
  decide

/-- A line whose comma split does not have exactly two fields yields
the InvalidFormat error with that line number and line. -/
theorem parse_action_line_wrong_fields (line : Str) (n : Nat)
    (h : (splitOnComma line).length ≠ 2) :
    parse_action_line line n = .error (.InvalidFormat (actionFormatMsg n line)) := by
  unfold parse_action_line
  rcases hs : splitOnComma line with _ | ⟨a, _ | ⟨b, _ | ⟨c, t⟩⟩⟩
  · rfl
  · rfl
  · exact absurd (by rw [hs]; rfl) h
  · rfl

/-- A two-field line whose trimmed first field does not parse as a
float yields the ParseError with that line number and the untrimmed
first field. -/
theorem parse_action_line_bad_timestamp (line p0 p1 : Str) (n : Nat)
    (hs : splitOnComma line = [p0, p1]) (hf : parseF64 (trimStr p0) = none) :
    parse_action_line line n = .error (.ParseError (timestampMsg n p0)) := by
  unfold parse_action_line
  rw [hs]
  dsimp only
  rw [hf]

/-- A run of lines that are all blank after trimming parses to an
empty action list. -/
theorem parseActionsGo_blank (rest : List Str) :
    ∀ i : Nat, (∀ l ∈ rest, trimStr l = []) → parseActionsGo i rest = .ok [] := by
  induction rest with
  | nil => intro i _; rfl
  | cons l t ih =>
    intro i h
    have hl : trimStr l = [] := h l (List.mem_cons_self l t)
    conv_lhs => unfold parseActionsGo
    dsimp only
    rw [if_pos hl]
    exact ih (i + 1) (fun x hx => h x (List.mem_cons_of_mem l hx))

/-- C7: after the header, a line that is blank after trimming is
skipped while still advancing the enumeration index; a non-blank line
with the wrong field count fails with InvalidFormat carrying line
number index plus 2; a non-blank line with a non-numeric timestamp
fails with ParseError carrying line number index plus 2, so line 2 is
the first line after the header and blank lines still advance the
numbering (shown concretely in the last two conjuncts). -/
theorem c7_line_numbers :
    (∀ (i : Nat) (l : Str) (rest : List Str), trimStr l = [] →
      parseActionsGo i (l :: rest) = parseActionsGo (i + 1) rest)
    ∧ (∀ (i : Nat) (l : Str) (rest : List Str), trimStr l ≠ [] →
        (splitOnComma (trimStr l)).length ≠ 2 →
        parseActionsGo i (l :: rest) =
          .error (.InvalidFormat (actionFormatMsg (i + 2) (trimStr l))))
    ∧ (∀ (i : Nat) (l : Str) (rest : List Str) (p0 p1 : Str), trimStr l ≠ [] →
        splitOnComma (trimStr l) = [p0, p1] → parseF64 (trimStr p0) = none →
        parseActionsGo i (l :: rest) =
          .error (.ParseError (timestampMsg (i + 2) p0)))
    ∧ read_battle_log [str "b1,1", str "bad"] =
        .error (.InvalidFormat (actionFormatMsg 2 (str "bad")))
    ∧ read_battle_log [str "b1,1", str "", str "abc,us"] =
        .error (.ParseError (timestampMsg 3 (str "abc"))) := by
  refine ⟨?_, ?_, ?_, by decide, by decide⟩
  · intro i l rest h
    conv_lhs => unfold parseActionsGo
    dsimp only
    rw [if_pos h]
  · intro i l rest h hlen
    conv_lhs => unfold parseActionsGo
    dsimp only
    rw [if_neg h, parse_action_line_wrong_fields (trimStr l) (i + 2) hlen]
  · intro i l rest p0 p1 h hs hf
    conv_lhs => unfold parseActionsGo
    dsimp only
    rw [if_neg h, parse_action_line_bad_timestamp (trimStr l) p0 p1 (i + 2) hs hf]

/-- C7 witness: a blank line is skipped but advances the index, a
one-field line at index 0 reports line 2, and a bad-timestamp line at
index 5 reports line 7. -/
theorem c7_witness :
    parseActionsGo 0 [str " ", str "x"] = parseActionsGo 1 [str "x"]
    ∧ parseActionsGo 0 [str "bad"] =
        .error (.InvalidFormat (actionFormatMsg 2 (str "bad")))
    ∧ parseActionsGo 5 [str "abc,us"] =
        .error (.ParseError (timestampMsg 7 (str "abc"))) :=
  ⟨c7_line_numbers.1 0 (str " ") [str "x"] (by decide),
   c7_line_numbers.2.1 0 (str "bad") [] (by decide) (by decide),
   c7_line_numbers.2.2.1 5 (str "abc,us") [] (str "abc") (str "us")
     (by decide) (by decide) (by decide)⟩

/-- C6: parsing returns a battle log only when at least one action
record was collected — the empty input fails with the file-is-empty
EmptyData error, an input whose header parses but whose remaining
lines are all blank (or absent) fails with the no-records EmptyData
error, and a successful parse never carries an empty action list. -/
theorem c6_nonempty_guarantee :
    read_battle_log [] = .error (.EmptyData (str "ファイルが空です"))
    ∧ (∀ (ls : List Str) (info : PlayerInfo) (rest : List Str),
        parse_player_info ls = .ok (info, rest) →
        (∀ l ∈ rest, trimStr l = []) →
        read_battle_log ls =
          .error (.EmptyData (str "行動データが1つも見つかりませんでした")))
    ∧ (∀ (ls : List Str) (log : BattleLog),
        read_battle_log ls = .ok log → log.actions ≠ []) := by
  refine ⟨by decide, ?_, ?_⟩
  · intro ls info rest hinfo hblank
    unfold read_battle_log
    rw [hinfo]
    dsimp only
    rw [show parse_actions rest = .ok [] from parseActionsGo_blank rest 0 hblank]
    rfl
  · intro ls log h
    unfold read_battle_log at h
    cases hpi : parse_player_info ls with
    | error e => rw [hpi] at h; exact Except.noConfusion h
    | ok v =>
      obtain ⟨info, rest⟩ := v
      rw [hpi] at h
      dsimp only at h
      cases hpa : parse_actions rest with
      | error e => rw [hpa] at h; exact Except.noConfusion h
      | ok acts =>
        rw [hpa] at h
        dsimp only at h
        by_cases hacts : acts = []
        · rw [if_pos hacts] at h; exact Except.noConfusion h
        · rw [if_neg hacts] at h
          intro hempty
          exact hacts ((congrArg BattleLog.actions (Except.ok.inj h)).trans hempty)

/-- C6 witness: a lone valid header line parses as a header, and the
whole-file parse then fails with the no-records EmptyData error. -/
theorem c6_witness :
    parse_player_info [str "a,1"] = .ok (⟨str "a", 1⟩, ([] : List Str))
    ∧ read_battle_log [str "a,1"] =
        .error (.EmptyData (str "行動データが1つも見つかりませんでした")) :=
  ⟨by decide,
   c6_nonempty_guarantee.2.1 [str "a,1"] ⟨str "a", 1⟩ [] (by decide) (by simp)⟩

/-- C8 witness: the freshly initialised counter has total zero and all
three ratios zero. -/
theorem c8_witness :
    ActionCounts.new.total = 0
    ∧ ActionCounts.new.attack_ratio_pct = 0
    ∧ ActionCounts.new.shield_ratio_pct = 0
    ∧ ActionCounts.new.dodge_ratio_pct = 0 := by
  have h := c8_zero_total ActionCounts.new rfl
  exact ⟨rfl, h.1, h.2.1, h.2.2⟩

/-- Total of the three counters is zero exactly when each counter is. -/
theorem counts_zero_of_total_zero (c : ActionCounts) (h : c.total = 0) :
    c.attack_count = 0 ∧ c.shield_count = 0 ∧ c.dodge_count = 0 := by
  unfold ActionCounts.total at h
  omega

/-- Percentages over the same positive total compare exactly as the
underlying counts. -/
theorem ratioPct_le_iff (x y t : Nat) (ht : t ≠ 0) :
    ((x : ℚ) / (t : ℚ)) * 100 ≤ ((y : ℚ) / (t : ℚ)) * 100 ↔ x ≤ y := by
  have ht' : (0 : ℚ) < (t : ℚ) := by
    exact_mod_cast Nat.pos_of_ne_zero ht
  rw [mul_le_mul_right (by norm_num : (0 : ℚ) < 100),
    div_le_div_iff_of_pos_right ht']
  exact Nat.cast_le

/-- Shield ratio at most attack ratio iff the counts compare so. -/
theorem shield_ratio_le_attack_iff (c : ActionCounts) :
    c.shield_ratio_pct ≤ c.attack_ratio_pct ↔ c.shield_count ≤ c.attack_count := by
  unfold ActionCounts.attack_ratio_pct ActionCounts.shield_ratio_pct
  by_cases h : c.total = 0
  · obtain ⟨ha, hs, _⟩ := counts_zero_of_total_zero c h
    simp [h, ha, hs]
  · dsimp only
    rw [if_neg h, if_neg h]
    exact ratioPct_le_iff _ _ _ h

/-- Dodge ratio at most attack ratio iff the counts compare so. -/
theorem dodge_ratio_le_attack_iff (c : ActionCounts) :
    c.dodge_ratio_pct ≤ c.attack_ratio_pct ↔ c.dodge_count ≤ c.attack_count := by
  unfold ActionCounts.attack_ratio_pct ActionCounts.dodge_ratio_pct
  by_cases h : c.total = 0
  · obtain ⟨ha, _, hd⟩ := counts_zero_of_total_zero c h
    simp [h, ha, hd]
  · dsimp only
    rw [if_neg h, if_neg h]
    exact ratioPct_le_iff _ _ _ h

/-- Dodge ratio at most shield ratio iff the counts compare so. -/
theorem dodge_ratio_le_shield_iff (c : ActionCounts) :
    c.dodge_ratio_pct ≤ c.shield_ratio_pct ↔ c.dodge_count ≤ c.shield_count := by
  unfold ActionCounts.shield_ratio_pct ActionCounts.dodge_ratio_pct
  by_cases h : c.total = 0
  · obtain ⟨_, hs, hd⟩ := counts_zero_of_total_zero c h
    simp [h, hs, hd]
  · dsimp only
    rw [if_neg h, if_neg h]
    exact ratioPct_le_iff _ _ _ h

/-- C5: most_frequent_action resolves by ratio comparison with
tie-break order Attack, then Shield, then Dodge — it returns Attack
exactly when the attack ratio is at least both others (so Attack wins
an Attack/Shield tie and a 3-way tie), otherwise Shield exactly when
the shield ratio is at least the dodge ratio (Shield wins a
Shield/Dodge tie), otherwise Dodge; equivalently, the same
characterization holds with the raw counts in place of the ratios. -/
theorem c5_most_frequent (c : ActionCounts) :
    (c.most_frequent_action = .Attack ↔
      (c.attack_ratio_pct ≥ c.shield_ratio_pct ∧ c.attack_ratio_pct ≥ c.dodge_ratio_pct))
    ∧ (c.most_frequent_action = .Shield ↔
      (¬(c.attack_ratio_pct ≥ c.shield_ratio_pct ∧ c.attack_ratio_pct ≥ c.dodge_ratio_pct)
        ∧ c.shield_ratio_pct ≥ c.dodge_ratio_pct))
    ∧ (c.most_frequent_action = .Dodge ↔
      (¬(c.attack_ratio_pct ≥ c.shield_ratio_pct ∧ c.attack_ratio_pct ≥ c.dodge_ratio_pct)
        ∧ ¬(c.shield_ratio_pct ≥ c.dodge_ratio_pct)))
    ∧ (c.most_frequent_action = .Attack ↔
      (c.attack_count ≥ c.shield_count ∧ c.attack_count ≥ c.dodge_count))
    ∧ (c.most_frequent_action = .Shield ↔
      (¬(c.attack_count ≥ c.shield_count ∧ c.attack_count ≥ c.dodge_count)
        ∧ c.shield_count ≥ c.dodge_count))
    ∧ (c.most_frequent_action = .Dodge ↔
      (¬(c.attack_count ≥ c.shield_count ∧ c.attack_count ≥ c.dodge_count)
        ∧ ¬(c.shield_count ≥ c.dodge_count))) := by
  have h1 := shield_ratio_le_attack_iff c
  have h2 := dodge_ratio_le_attack_iff c
  have h3 := dodge_ratio_le_shield_iff c
  have hmost : c.most_frequent_action =
      (if c.attack_ratio_pct ≥ c.shield_ratio_pct ∧ c.attack_ratio_pct ≥ c.dodge_ratio_pct
        then ActionType.Attack
        else if c.shield_ratio_pct ≥ c.dodge_ratio_pct then ActionType.Shield
        else ActionType.Dodge) := rfl
  rw [hmost]
  by_cases hA : c.attack_ratio_pct ≥ c.shield_ratio_pct ∧ c.attack_ratio_pct ≥ c.dodge_ratio_pct
  · have hA' : c.attack_count ≥ c.shield_count ∧ c.attack_count ≥ c.dodge_count :=
      ⟨h1.mp hA.1, h2.mp hA.2⟩
    simp [if_pos hA, hA, hA']
  · have hA' : ¬(c.attack_count ≥ c.shield_count ∧ c.attack_count ≥ c.dodge_count) :=
      fun hc => hA ⟨h1.mpr hc.1, h2.mpr hc.2⟩
    rw [if_neg hA]
    by_cases hS : c.shield_ratio_pct ≥ c.dodge_ratio_pct
    · have hS' : c.shield_count ≥ c.dodge_count := h3.mp hS
      simp [if_pos hS, hA, hA', hS, hS']
    · have hS' : ¬ c.shield_count ≥ c.dodge_count := fun hc => hS (h3.mpr hc)
      simp [if_neg hS, hA, hA', hS, hS']

/-- A map key is in the insertion result iff it is the inserted code
or was already present. -/
theorem btreeInsert_keys_mem (m : List (Str × Nat)) (c k : Str) :
    k ∈ (btreeInsert m c).map Prod.fst ↔ k = c ∨ k ∈ m.map Prod.fst := by
  induction m with
  | nil => simp [btreeInsert]
  | cons kv rest ih =>
    obtain ⟨k', v⟩ := kv
    unfold btreeInsert
    by_cases h1 : c < k'
    · rw [if_pos h1]; simp
    · rw [if_neg h1]
      by_cases h2 : c = k'
      · rw [if_pos h2]; subst h2; simp
      · rw [if_neg h2]; simp [ih]; tauto

/-- Insertion increases the sum of the stored counts by exactly one. -/
theorem btreeInsert_sum (m : List (Str × Nat)) (c : Str) :
    ((btreeInsert m c).map Prod.snd).sum = (m.map Prod.snd).sum + 1 := by
  induction m with
  | nil => simp [btreeInsert]
  | cons kv rest ih =>
    obtain ⟨k', v⟩ := kv
    unfold btreeInsert
    by_cases h1 : c < k'
    · rw [if_pos h1]; simp; omega
    · rw [if_neg h1]
      by_cases h2 : c = k'
      · rw [if_pos h2]; simp; omega
      · rw [if_neg h2]; simp [ih]; omega

/-- Insertion preserves the strictly-ascending-keys invariant of the
association list modelling the BTreeMap. -/
theorem btreeInsert_sorted (m : List (Str × Nat)) (c : Str)
    (h : m.Pairwise (fun a b => a.1 < b.1)) :
    (btreeInsert m c).Pairwise (fun a b => a.1 < b.1) := by
  induction m with
  | nil => simp [btreeInsert]
  | cons kv rest ih =>
    obtain ⟨k', v⟩ := kv
    rw [List.pairwise_cons] at h
    obtain ⟨hhead, htail⟩ := h
    unfold btreeInsert
    by_cases h1 : c < k'
    · rw [if_pos h1]
      refine List.Pairwise.cons ?_ (List.Pairwise.cons hhead htail)
      intro x hx
      rcases List.mem_cons.mp hx with rfl | hx'
      · exact h1
      · exact lt_trans h1 (hhead x hx')
    · rw [if_neg h1]
      by_cases h2 : c = k'
      · rw [if_pos h2]
        exact List.Pairwise.cons hhead htail
      · rw [if_neg h2]
        refine List.Pairwise.cons ?_ (ih htail)
        intro x hx
        have hk : k' < c := lt_of_le_of_ne (le_of_not_lt h1) (fun hh => h2 hh.symm)
        have hx1 : x.1 = c ∨ x.1 ∈ rest.map Prod.fst :=
          (btreeInsert_keys_mem rest c x.1).mp (List.mem_map_of_mem Prod.fst hx)
        rcases hx1 with hh | hh
        · rw [hh]; exact hk
        · obtain ⟨y, hy, hy1⟩ := List.mem_map.mp hh
          rw [← hy1]
          exact hhead y hy

/-- Folding insertions over any code list keeps the keys strictly
ascending. -/
theorem foldl_btreeInsert_sorted (codes : List Str) :
    ∀ m : List (Str × Nat), m.Pairwise (fun a b => a.1 < b.1) →
      (codes.foldl btreeInsert m).Pairwise (fun a b => a.1 < b.1) := by
  induction codes with
  | nil => intro m h; exact h
  | cons c t ih => intro m h; exact ih (btreeInsert m c) (btreeInsert_sorted m c h)

/-- Folding insertions adds one to the count sum per code processed. -/
theorem foldl_btreeInsert_sum (codes : List Str) :
    ∀ m : List (Str × Nat),
      ((codes.foldl btreeInsert m).map Prod.snd).sum =
        (m.map Prod.snd).sum + codes.length := by
  induction codes with
  | nil => intro m; simp
  | cons c t ih =>
    intro m
    show ((t.foldl btreeInsert (btreeInsert m c)).map Prod.snd).sum = _
    rw [ih (btreeInsert m c), btreeInsert_sum]
    simp
    omega

/-- The keys after folding insertions are the initial keys plus the
processed codes. -/
theorem foldl_btreeInsert_keys (codes : List Str) :
    ∀ (m : List (Str × Nat)) (k : Str),
      k ∈ (codes.foldl btreeInsert m).map Prod.fst ↔
        k ∈ m.map Prod.fst ∨ k ∈ codes := by
  induction codes with
  | nil => intro m k; simp
  | cons c t ih =>
    intro m k
    show k ∈ (t.foldl btreeInsert (btreeInsert m c)).map Prod.fst ↔ _
    rw [ih, btreeInsert_keys_mem]
    simp [List.mem_cons]
    tauto

instance freqLe_total : IsTotal (Str × Nat) freqLe where
  total a b := by
    unfold freqLe
    rcases lt_trichotomy a.2 b.2 with h | h | h
    · exact Or.inr (Or.inl h)
    · rcases le_total a.1 b.1 with hle | hle
      · exact Or.inl (Or.inr ⟨h, hle⟩)
      · exact Or.inr (Or.inr ⟨h.symm, hle⟩)
    · exact Or.inl (Or.inl h)

instance freqLe_trans : IsTrans (Str × Nat) freqLe where
  trans a b c hab hbc := by
    unfold freqLe at hab hbc ⊢
    rcases hab with h1 | ⟨h1, h1'⟩
    · rcases hbc with h2 | ⟨h2, h2'⟩
      · exact Or.inl (lt_trans h2 h1)
      · refine Or.inl ?_
        rw [← h2]
        exact h1
    · rcases hbc with h2 | ⟨h2, h2'⟩
      · refine Or.inl ?_
        rw [h1]
        exact h2
      · exact Or.inr ⟨h1.trans h2, le_trans h1' h2'⟩

/-- C3: the frequency table contains each distinct raw code exactly
once (its keys are duplicate-free and are exactly the codes occurring
in the log), its counts sum to the number of action records, and it is
strictly sorted by count descending with ties broken by code ascending
— hence deterministic and not input-order-dependent; concretely,
counts ss 3, ds 3, us 5 (interleaved in input order) produce the table
us 5, ds 3, ss 3. -/
theorem c3_frequency_table :
    (∀ log : BattleLog,
      ((count_actions_by_id log).map Prod.fst).Nodup
      ∧ (∀ k : Str, k ∈ (count_actions_by_id log).map Prod.fst ↔
          k ∈ log.actions.map Action.original_id)
      ∧ ((count_actions_by_id log).map Prod.snd).sum = log.actions.length
      ∧ (count_actions_by_id log).Pairwise
          (fun a b => b.2 < a.2 ∨ (a.2 = b.2 ∧ a.1 < b.1)))
    ∧ count_actions_by_id exampleLog =
        [(str "us", 5), (str "ds", 3), (str "ss", 3)] := by
  refine ⟨?_, by decide⟩
  intro log
  have hct : count_actions_by_id log =
      ((log.actions.map Action.original_id).foldl btreeInsert []).insertionSort freqLe := by
    unfold count_actions_by_id
    rw [List.foldl_map]
  set codes := log.actions.map Action.original_id with hcodes
  set items := codes.foldl btreeInsert [] with hitems
  have hsorteditems : items.Pairwise (fun a b => a.1 < b.1) :=
    foldl_btreeInsert_sorted codes [] List.Pairwise.nil
  have hperm : List.Perm (items.insertionSort freqLe) items :=
    List.perm_insertionSort freqLe items
  have hnoditems : (items.map Prod.fst).Nodup := by
    unfold List.Nodup
    rw [List.pairwise_map]
    exact hsorteditems.imp (fun h => ne_of_lt h)
  rw [hct]
  refine ⟨?_, ?_, ?_, ?_⟩
  · exact (List.Perm.nodup_iff (hperm.map Prod.fst)).mpr hnoditems
  · intro k
    rw [List.Perm.mem_iff (hperm.map Prod.fst), foldl_btreeInsert_keys codes [] k]
    simp
  · rw [List.Perm.sum_eq (hperm.map Prod.snd), foldl_btreeInsert_sum codes []]
    simp
    rw [hcodes, List.length_map]
  · have hs := List.sorted_insertionSort freqLe items
    have hnodsort : (items.insertionSort freqLe).Pairwise (fun a b => a.1 ≠ b.1) := by
      have hnd := (List.Perm.nodup_iff (hperm.map Prod.fst)).mpr hnoditems
      unfold List.Nodup at hnd
      rwa [List.pairwise_map] at hnd
    have hcomb := List.Pairwise.and (hs : List.Pairwise freqLe _) hnodsort
    refine hcomb.imp ?_
    intro a b h
    obtain ⟨hle, hne⟩ := h
    unfold freqLe at hle
    rcases hle with h1 | ⟨h2, h3⟩
    · exact Or.inl h1
    · exact Or.inr ⟨h2, lt_of_le_of_ne h3 hne⟩

end Smasher
